import Mathlib

/-!
# hub: checkout rewriting, git plumbing and template lookup

A shallow embedding of three source files of `github.com/github/hub`:

* `commands/checkout.go`: `transformCheckoutArgs`, `sanitizeCheckoutFlags`,
  `replaceCheckoutParam`;
* `git/git.go`: `Run`, `gitOutput`, `Show`, `Log`, `IsGitDir`, `ForwardGitHelp`, `Dir`;
* `github/template.go`: `getFilePath`.

Go strings are embedded as Lean strings (sequences of Unicode scalar values). Go `error`
values are embedded by their message. Code that `panic`s, and `utils.Check` terminating the
process, are explicit outcomes.
-/

namespace Hub

/-! ## Definitions -/

/-! ### The argument pipeline (`commands.Args`) -/

/-- Modelled from the spec: the `Args` type of package `commands` (its file is not among the
sources). An invocation is "an ordered sequence of string tokens" (`Params`) "plus an ordered
sequence of auxiliary command token-sequences queued to run first" (`beforeChain`). -/
structure Args where
  Params : List String
  beforeChain : List (List String)
deriving DecidableEq, Repr

/-- Modelled from the spec: `Args.Words`, "positionalTokens() — non-flag tokens": the tokens
that do not start with a dash, in their order. -/
def Args.Words (a : Args) : List String :=
  a.Params.filter (fun p => !("-".toList.isPrefixOf p.toList))

/-- Modelled from the spec: `Args.IndexOfParam`, "indexOf(token) — first match or not found";
the callers in `checkout.go` compare the result with `-1` and `0`, so not found is `-1`. -/
def Args.IndexOfParam (a : Args) (param : String) : Int :=
  if param ∈ a.Params then (a.Params.indexOf param : Int) else -1

/-- Modelled from the spec: `Args.RemoveParam`, "removeAt(index)". The spec leaves the
operation undefined at an index that is not one of the token list: `none`. -/
def Args.RemoveParam (a : Args) (i : Int) : Option Args :=
  if 0 ≤ i ∧ i < (a.Params.length : Int) then
    some { a with Params := a.Params.eraseIdx i.toNat }
  else none

/-- Modelled from the spec: `Args.InsertParam`, "insertAt(index, tokens...) shifting later
tokens right". Undefined (`none`) at an index outside `0..len`. -/
def Args.InsertParam (a : Args) (i : Int) (items : List String) : Option Args :=
  if 0 ≤ i ∧ i ≤ (a.Params.length : Int) then
    some { a with Params := a.Params.take i.toNat ++ items ++ a.Params.drop i.toNat }
  else none

/-- Modelled from the spec: `Args.Before`, "queueBefore(tokens...) appends one auxiliary
command, FIFO". -/
def Args.Before (a : Args) (command : List String) : Args :=
  { a with beforeChain := a.beforeChain ++ [command] }

/-! ### Collaborators of the checkout rewriter -/

/-- The `github.Project` record: only carried around by `transformCheckoutArgs`. -/
structure Project where
  Name : String
  Owner : String
  Host : String
  Protocol : String
deriving DecidableEq, Repr

/-- The `github.URL` record returned by `github.ParseURL`. -/
structure URL where
  Project : Project
  Path : String
deriving DecidableEq, Repr

/-- The head repository of a pull request: `Name`, `Owner.Login`, `Private`. -/
structure Repository where
  Name : String
  OwnerLogin : String
  Private : Bool
deriving DecidableEq, Repr

/-- The part of a pull request that `transformCheckoutArgs` reads: `Head.Ref` and
`Head.Repo` (`nil` for a deleted fork). -/
structure PullRequest where
  HeadRef : String
  HeadRepo : Option Repository
deriving DecidableEq, Repr

/-- The functions of package `github` and of the local repository that
`transformCheckoutArgs` calls and whose code is not among the sources, as parameters.
`ParseURL` is `none` when `github.ParseURL` returns an error; `PullRequest` is the metadata
collaborator `github.NewClient(host).PullRequest(project, id)`; `LocalRepo` is the error of
`github.LocalRepo()`, if any; `RemoteByName name` is `true` when `repo.RemoteByName(name)`
returns no error. -/
structure Env where
  ParseURL : String → Option URL
  ProjectPath : URL → String
  PullRequest : Project → String → Except String PullRequest
  LocalRepo : Option String
  RemoteByName : String → Bool
  GitURL : Project → String → String → Bool → String

/-- How a call of `transformCheckoutArgs` ends: it returns an `error` (`none` for `nil`), or
`utils.Check` terminates the process with the error it was given, or an `Args` operation was
used at an index for which it is not defined. -/
inductive Outcome where
  | returned (err : Option String)
  | exited (msg : String)
  | undefined
deriving DecidableEq, Repr

/-- The observable result of a call: the outcome, the invocation as the call leaves it, and
the calls made to the metadata collaborator, in order. -/
structure Result where
  outcome : Outcome
  args : Args
  prCalls : List (Project × String)
deriving DecidableEq, Repr

/-! ### `commands/checkout.go` -/

/-- The character class `\d` of Go regular expressions: an ASCII decimal digit. -/
def isDigit (c : Char) : Bool :=
  decide ('0'.toNat ≤ c.toNat ∧ c.toNat ≤ '9'.toNat)

/-- The regular expression `^pull/(\d+)` of `transformCheckoutArgs`: `none` when
`MatchString` is false, and otherwise `FindStringSubmatch(s)[1]`, the longest run of digits
right after the leading `pull/`. -/
def pullURLRegex (s : String) : Option String :=
  if "pull/".toList.isPrefixOf s.toList then
    let ds := (s.toList.drop 5).takeWhile isDigit
    if ds.isEmpty then none else some (String.mk ds)
  else none

/-- The function `sanitizeCheckoutFlags`: the error for `-b`, else the error for `--orphan`,
else `nil` (`none`). -/
def sanitizeCheckoutFlags (args : Args) : Option String :=
  if args.IndexOfParam "-b" ≠ -1 then
    some "Unsupported flag -b when checking out pull request"
  else if args.IndexOfParam "--orphan" ≠ -1 then
    some "Unsupported flag --orphan when checking out pull request"
  else none

/-- The function `replaceCheckoutParam`: remove the parameter at the index of `checkoutURL`
and insert the four replacement tokens there. `none` when one of the two operations is
undefined. -/
def replaceCheckoutParam (args : Args) (checkoutURL branchName remoteName : String) :
    Option Args :=
  let idx := args.IndexOfParam checkoutURL
  match args.RemoveParam idx with
  | none => none
  | some args1 => args1.InsertParam idx ["--track", "-B", branchName, remoteName]

/-- Lines 47 to 50, `var newBranchName string; if len(words) > 1 { newBranchName = words[1] }`,
on the words after the first: the second word, or the empty string. -/
def secondWord (rest : List String) : String :=
  match rest with
  | [] => ""
  | w :: _ => w

/-- The function `transformCheckoutArgs`, statement by statement. -/
def transformCheckoutArgs (env : Env) (args : Args) : Result :=
  match args.Words with
  | [] => ⟨.returned none, args, []⟩
  | checkoutURL :: rest =>
    let newBranchName := secondWord rest
    match env.ParseURL checkoutURL with
    | none => ⟨.returned none, args, []⟩
    | some url =>
      let projectPath := env.ProjectPath url
      match pullURLRegex projectPath with
      | none => ⟨.returned none, args, []⟩
      | some id =>
        match sanitizeCheckoutFlags args with
        | some err => ⟨.returned (some err), args, []⟩
        | none =>
          match env.PullRequest url.Project id with
          | .error err => ⟨.returned (some err), args, [(url.Project, id)]⟩
          | .ok pullRequest =>
            let idx := args.IndexOfParam newBranchName
            match (if idx ≥ 0 then args.RemoveParam idx else some args) with
            | none => ⟨.undefined, args, [(url.Project, id)]⟩
            | some args1 =>
              let branch := pullRequest.HeadRef
              match pullRequest.HeadRepo with
              | none =>
                ⟨.returned (some "Error: that fork is not available anymore"), args1,
                  [(url.Project, id)]⟩
              | some headRepo =>
                let user := headRepo.OwnerLogin
                let newBranchName :=
                  if newBranchName = "" then user ++ "-" ++ branch else newBranchName
                match env.LocalRepo with
                | some err => ⟨.exited err, args1, [(url.Project, id)]⟩
                | none =>
                  let args2 :=
                    if env.RemoteByName user then
                      let a :=
                        args1.Before ["git", "remote", "set-branches", "--add", user, branch]
                      let remoteURL :=
                        "+refs/heads/" ++ branch ++ ":refs/remotes/" ++ user ++ "/" ++ branch
                      a.Before ["git", "fetch", user, remoteURL]
                    else
                      let u := env.GitURL url.Project headRepo.Name user headRepo.Private
                      args1.Before
                        ["git", "remote", "add", "-f", "--no-tags", "-t", branch, user, u]
                  let remoteName := user ++ "/" ++ branch
                  match replaceCheckoutParam args2 checkoutURL newBranchName remoteName with
                  | none => ⟨.undefined, args2, [(url.Project, id)]⟩
                  | some args3 => ⟨.returned none, args3, [(url.Project, id)]⟩

/-! ### An environment for evaluation -/

/-- A parser in the manner of `github.ParseURL` for evaluation: accepts
`https://github.com/<owner>/<repo>/<project path>`. -/
def demoParseURL (s : String) : Option URL :=
  if "https://github.com/OWNER/REPO/".toList.isPrefixOf s.toList then
    some ⟨⟨"REPO", "OWNER", "github.com", "https"⟩, String.mk (s.toList.drop 30)⟩
  else none

/-- A metadata collaborator for evaluation: pull request 73 has head `feature` in the
repository `REPO` of `OWNER2`; 74 is from a deleted fork; every other id fails. -/
def demoPullRequest (_ : Project) (id : String) : Except String PullRequest :=
  if id = "73" then .ok ⟨"feature", some ⟨"REPO", "OWNER2", false⟩⟩
  else if id = "74" then .ok ⟨"gone", none⟩
  else .error "Not Found"

/-- An environment for evaluation; `remotes` are the names of the local remotes. -/
def demoEnv (remotes : List String) (localRepo : Option String) : Env where
  ParseURL := demoParseURL
  ProjectPath := fun u => u.Path
  PullRequest := demoPullRequest
  LocalRepo := localRepo
  RemoteByName := fun name => decide (name ∈ remotes)
  GitURL := fun p name owner isSSH =>
    if isSSH then "git@" ++ p.Host ++ ":" ++ owner ++ "/" ++ name ++ ".git"
    else "git://" ++ p.Host ++ "/" ++ owner ++ "/" ++ name ++ ".git"

/-! ### The rewrite and the classification, in the words of the specification -/

/-- The first occurrence of `x` replaced in place by `items`. -/
def spliceFirst (l : List String) (x : String) (items : List String) : List String :=
  l.take (l.indexOf x) ++ items ++ l.drop (l.indexOf x + 1)

/-- The auxiliary commands queued by lines 95 to 103. -/
def queuedCommands (env : Env) (url : URL) (branch : String) (headRepo : Repository) :
    List (List String) :=
  if env.RemoteByName headRepo.OwnerLogin then
    [["git", "remote", "set-branches", "--add", headRepo.OwnerLogin, branch],
     ["git", "fetch", headRepo.OwnerLogin,
      "+refs/heads/" ++ branch ++ ":refs/remotes/" ++ headRepo.OwnerLogin ++ "/" ++ branch]]
  else
    [["git", "remote", "add", "-f", "--no-tags", "-t", branch, headRepo.OwnerLogin,
      env.GitURL url.Project headRepo.Name headRepo.OwnerLogin headRepo.Private]]

/-- The project path is exactly `pull/<digits>`: `pull/`, then one or more decimal digits,
then nothing. -/
def exactPullPath (s : String) : Bool :=
  "pull/".toList.isPrefixOf s.toList && !(s.toList.drop 5).isEmpty &&
    (s.toList.drop 5).all isDigit

/-- The project path starts with `pull/` followed by a decimal digit. -/
def startsWithPullDigit (s : String) : Bool :=
  "pull/".toList.isPrefixOf s.toList &&
    match s.toList.drop 5 with
    | [] => false
    | d :: _ => isDigit d

/-- The longest run of decimal digits right after the first five characters of a project
path: what `(\d+)` captures in a path that starts with `pull/` and a digit. -/
def leadingDigits (s : String) : String :=
  String.mk ((s.toList.drop 5).takeWhile isDigit)

/-- The text of a project path after its first five characters: the `<digits>` of a path
that is exactly `pull/<digits>`. -/
def pullId (s : String) : String :=
  String.mk (s.toList.drop 5)

/-- The token list once the caller-requested branch name is removed, in the words of the
specification: "if the caller-requested branch name token is present ... remove it". -/
def withoutSecondWord (params rest : List String) : List String :=
  match rest with
  | [] => params
  | N :: _ => params.erase N

/-- The new branch name, in the words of the specification: the caller's second positional
token when it is not empty, and `<owner-login>-<head-branch>` otherwise. -/
def newBranchNameFor (rest : List String) (owner branch : String) : String :=
  match rest with
  | [] => owner ++ "-" ++ branch
  | N :: _ => if N = "" then owner ++ "-" ++ branch else N

/-! ### `git/git.go`: running the tool -/

/-- Modelled from the spec: the command builder of package `cmd` (not among the sources),
"underlying version-control tool: invoked as a subprocess": the program name and the
arguments handed to it, in the order in which `WithArg` and `WithArgs` added them. -/
structure Cmd where
  Name : String
  Args : List String
deriving DecidableEq, Repr

/-- Modelled from the spec: `cmd.New(name)`, a command with no argument yet. -/
def Cmd.New (name : String) : Cmd := ⟨name, []⟩

/-- Modelled from the spec: `WithArg(arg)` adds one argument at the end. -/
def Cmd.WithArg (c : Cmd) (arg : String) : Cmd := { c with Args := c.Args ++ [arg] }

/-- Modelled from the spec: `WithArgs(args...)` adds the arguments at the end, in order. -/
def Cmd.WithArgs (c : Cmd) (args : List String) : Cmd := { c with Args := c.Args ++ args }

/-- What package `git` reads from outside: the package variable `GlobalFlags`, the
underlying tool (the combined output and the error, if any, of running a command:
`CombinedOutput`), and the working directory, or the error, that `os.Getwd` reports. -/
structure Git where
  GlobalFlags : List String
  CombinedOutput : Cmd → String × Option String
  Getwd : Except String String

/-- The function `unicode.IsSpace`: the Latin-1 spaces `\t \n \v \f \r`, space, U+0085 and
U+00A0, and the other code points with the White_Space property. -/
def isSpace (c : Char) : Bool :=
  let n := c.toNat
  (9 ≤ n && n ≤ 13) || n == 0x20 || n == 0x85 || n == 0xA0 || n == 0x1680 ||
    (0x2000 ≤ n && n ≤ 0x200A) || n == 0x2028 || n == 0x2029 || n == 0x202F ||
    n == 0x205F || n == 0x3000

/-- The function `strings.TrimSpace` on the characters of a string. -/
def trimSpaceChars (l : List Char) : List Char :=
  ((l.dropWhile isSpace).reverse.dropWhile isSpace).reverse

/-- The function `strings.TrimSpace`. -/
def TrimSpace (s : String) : String :=
  String.mk (trimSpaceChars s.toList)

/-- The function `strings.Split(s, sep)` for a separator of one character, on the characters
of a string: the pieces between the separators, one more than there are separators. -/
def splitChars (sep : Char) : List Char → List (List Char)
  | [] => [[]]
  | c :: cs =>
    if c = sep then [] :: splitChars sep cs
    else
      match splitChars sep cs with
      | [] => [[c]]
      | piece :: pieces => (c :: piece) :: pieces

/-- The function `strings.Split(s, "\n")`. -/
def SplitNewline (s : String) : List String :=
  (splitChars '\n' s.toList).map String.mk

/-- The command that `Run(command, args...)` runs: `git`, the global flags, the command,
its arguments. -/
def RunCmd (g : Git) (command : String) (args : List String) : Cmd :=
  args.foldl Cmd.WithArg ((g.GlobalFlags.foldl Cmd.WithArg (Cmd.New "git")).WithArg command)

/-- The command that `gitOutput(input...)` runs. -/
def gitOutputCmd (g : Git) (input : List String) : Cmd :=
  input.foldl Cmd.WithArg (g.GlobalFlags.foldl Cmd.WithArg (Cmd.New "git"))

/-- The loop of `gitOutput` over the pieces of the output: each is trimmed and, when not
empty, appended to `outputs`. -/
def gitOutputLines (out : String) : List String :=
  (SplitNewline out).foldl
    (fun outputs line =>
      let line := TrimSpace line
      if line ≠ "" then outputs ++ [line] else outputs)
    []

/-- The function `gitOutput(input...)`: the lines and the error of the tool. -/
def gitOutput (g : Git) (input : List String) : List String × Option String :=
  let r := g.CombinedOutput (gitOutputCmd g input)
  (gitOutputLines r.1, r.2)

/-- The command that `Show(sha)` runs. -/
def ShowCmd (_ : Git) (sha : String) : Cmd :=
  ((((Cmd.New "git").WithArg "show").WithArg "-s").WithArg "--format=%s%n%+b").WithArg sha

/-- The function `Show(sha)`: the trimmed output and the error of the tool. -/
def Show (g : Git) (sha : String) : String × Option String :=
  let r := g.CombinedOutput (ShowCmd g sha)
  (TrimSpace r.1, r.2)

/-- The command that `Log(sha1, sha2)` runs. -/
def LogCmd (_ : Git) (sha1 sha2 : String) : Cmd :=
  let execCmd := ((Cmd.New "git").WithArg "log").WithArg "--no-color"
  let execCmd := execCmd.WithArg "--format=%h (%aN, %ar)%n%w(78,3,3)%s%n%+b"
  let execCmd := execCmd.WithArg "--cherry"
  let shaRange := sha1 ++ "..." ++ sha2
  execCmd.WithArg shaRange

/-- The function `Log(sha1, sha2)`. -/
def Log (g : Git) (sha1 sha2 : String) : String × Option String :=
  let r := g.CombinedOutput (LogCmd g sha1 sha2)
  match r.2 with
  | some _ => ("", some ("Can't load git log " ++ sha1 ++ ".." ++ sha2))
  | none => (r.1, none)

/-- The command that `IsGitDir(dir)` runs. -/
def IsGitDirCmd (_ : Git) (dir : String) : Cmd :=
  (Cmd.New "git").WithArgs ["--git-dir=" ++ dir, "rev-parse", "--git-dir"]

/-- The command that `ForwardGitHelp()` runs. -/
def ForwardGitHelpCmd (_ : Git) : Cmd :=
  (Cmd.New "git").WithArgs ["help"]

/-! ### `git/git.go`: paths and `Dir` -/

/-- The function `filepath.IsAbs` on Unix: the path starts with a slash. -/
def IsAbs (path : String) : Bool :=
  "/".toList.isPrefixOf path.toList

/-- One step of the loop of `filepath.Clean`, on a path element instead of on bytes: an empty
element and `.` are skipped, `..` takes back the last element written unless there is none
after the protected prefix (and is then written, and protected, when the path is not rooted),
and any other element is written. `out` holds the elements written, `dotdot` how many of
them are a protected prefix of `..` elements. -/
def cleanStep (rooted : Bool) (st : List (List Char) × Nat) (elem : List Char) :
    List (List Char) × Nat :=
  if elem = [] ∨ elem = ['.'] then st
  else if elem = ['.', '.'] then
    if st.1.length > st.2 then (st.1.dropLast, st.2)
    else if !rooted then (st.1 ++ [elem], st.1.length + 1)
    else st
  else (st.1 ++ [elem], st.2)

/-- The function `filepath.Clean` on Unix: the shortest equivalent path; an empty result is
`.`. -/
def Clean (path : String) : String :=
  if path = "" then "."
  else
    let rooted := IsAbs path
    let st := (splitChars '/' path.toList).foldl (cleanStep rooted) ([], 0)
    let out := (if rooted then ['/'] else []) ++ List.intercalate ['/'] st.1
    if out = [] then "." else String.mk out

/-- The function `filepath.Join` on Unix: the elements from the first non-empty one on, joined
with slashes and cleaned; the empty string when all are empty. -/
def Join (elem : List String) : String :=
  match elem.dropWhile (fun e => decide (e = "")) with
  | [] => ""
  | rest => Clean ("/".intercalate rest)

/-- The function `filepath.Abs` on Unix. -/
def Abs (g : Git) (path : String) : Except String String :=
  if IsAbs path then .ok (Clean path)
  else
    match g.Getwd with
    | .error err => .error err
    | .ok wd => .ok (Join [wd, path])

/-- How a call of `Dir` ends: it returns a directory and `nil`, or it returns an error, or it
panics on an index out of range (`GlobalFlags[i+1]`, `output[0]`). -/
inductive DirOutcome where
  | ok (dir : String)
  | error (msg : String)
  | panic
deriving DecidableEq, Repr

/-- The observable result of a call of `Dir`: the outcome, the package variable `cachedDir`
as the call leaves it, and the commands the call ran, in order. -/
structure DirResult where
  outcome : DirOutcome
  cachedDir : String
  queries : List Cmd
deriving DecidableEq, Repr

/-- The loop of `Dir` over `GlobalFlags` (lines 36 to 46), on the flags from index `i` on and
the value of `chdir` so far; `none` when `GlobalFlags[i+1]` is out of range. -/
def chdirLoop : List String → String → Option String
  | [], chdir => some chdir
  | flag :: rest, chdir =>
    if flag = "-C" then
      match rest with
      | [] => none
      | dir :: _ =>
        if IsAbs dir then chdirLoop rest dir
        else chdirLoop rest (Join [chdir, dir])
    else chdirLoop rest chdir

/-- The function `Dir`, with the package variable `cachedDir` as an explicit state. -/
def Dir (g : Git) (cachedDir : String) : DirResult :=
  if cachedDir ≠ "" then ⟨.ok cachedDir, cachedDir, []⟩
  else
    let query := gitOutputCmd g ["rev-parse", "-q", "--git-dir"]
    let r := gitOutput g ["rev-parse", "-q", "--git-dir"]
    match r.2 with
    | some _ =>
      ⟨.error "Not a git repository (or any of the parent directories): .git", cachedDir,
        [query]⟩
    | none =>
      match chdirLoop g.GlobalFlags "" with
      | none => ⟨.panic, cachedDir, [query]⟩
      | some chdir =>
        match r.1 with
        | [] => ⟨.panic, cachedDir, [query]⟩
        | gitDir :: _ =>
          if !IsAbs gitDir then
            let gitDir := if chdir ≠ "" then Join [chdir, gitDir] else gitDir
            match Abs g gitDir with
            | .error err => ⟨.error err, cachedDir, [query]⟩
            | .ok gitDir =>
              let gitDir := Clean gitDir
              ⟨.ok gitDir, gitDir, [query]⟩
          else ⟨.ok gitDir, gitDir, [query]⟩

/-- Calls of `Dir` one after the other in one process, the world being `gs[i]` at the time of
call `i`: the results, each call starting from the `cachedDir` that the one before left. -/
def runDirs : List Git → String → List DirResult
  | [], _ => []
  | g :: gs, cachedDir => Dir g cachedDir :: runDirs gs (Dir g cachedDir).cachedDir

/-- What a call of `Dir` does to the memoized cell: a call that succeeds leaves its result,
which is not empty, in the cell; any other call leaves the cell as it was. -/
def DirInv (cachedDir : String) (r : DirResult) : Prop :=
  match r.outcome with
  | .ok d => d ≠ "" ∧ r.cachedDir = d ∧ (cachedDir = "" ∨ cachedDir = d)
  | _ => r.cachedDir = cachedDir

/-! ### `github/template.go` -/

/-- The constant `pullRequestTemplate`. -/
def pullRequestTemplate : String := "pull_request_template"

/-- The constant `issueTemplate`. -/
def issueTemplate : String := "issue_template"

/-- The loop of `filepath.Ext`, from the last character backwards: `rev` holds the characters
not yet seen, last first, and `acc` the ones seen. -/
def extLoop : List Char → List Char → List Char
  | [], _ => []
  | c :: rev, acc =>
    if c = '/' then []
    else if c = '.' then '.' :: acc
    else extLoop rev (c :: acc)

/-- The function `filepath.Ext`: the suffix that starts at the last dot of the last element
of the path, or the empty string. -/
def Ext (path : String) : String :=
  String.mk (extLoop path.toList.reverse [])

/-- The function `strings.TrimRight(s, cutset)`: `s` without its trailing characters that are
in `cutset`. -/
def TrimRight (s cutset : String) : String :=
  String.mk ((s.toList.reverse.dropWhile (fun c => decide (c ∈ cutset.toList))).reverse)

/-- The function `strings.TrimSuffix(s, suffix)`: `s` without the trailing `suffix`, if it
ends with it. -/
def TrimSuffix (s suffix : String) : String :=
  if suffix.toList.isSuffixOf s.toList then
    String.mk (s.toList.take (s.toList.length - suffix.toList.length))
  else s

/-- The function `strings.ToLower`, on ASCII letters; other characters are left as they are. -/
def ToLower (s : String) : String :=
  String.mk (s.toList.map Char.toLower)

/-- The function `filepath.Match` for a pattern with none of the characters `*`, `?`, `[` and
`\`: such a pattern matches its own text only. The patterns of this package,
`pullRequestTemplate` and `issueTemplate`, are of this kind. -/
def filepathMatch (pattern name : String) : Bool :=
  decide (pattern = name)

/-- The loop of `getFilePath` over the files of the directory. -/
def getFilePathLoop (dir pattern : String) : List String → String
  | [] => ""
  | fileName :: files =>
    let ext := Ext fileName
    let path :=
      if ext = ".md" then TrimRight fileName ".md"
      else if ext = ".txt" then TrimRight fileName ".txt"
      else fileName
    let path := ToLower path
    if filepathMatch pattern path then Join [dir, fileName]
    else getFilePathLoop dir pattern files

/-- The function `getFilePath(dir, pattern)`, given what `ioutil.ReadDir(dir)` returns: the
names of the files of the directory, or an error, with which `utils.Check` terminates the
process (`Except.error`). -/
def getFilePath (readDir : Except String (List String)) (dir pattern : String) :
    Except String String :=
  match readDir with
  | .error err => .error err
  | .ok files => .ok (getFilePathLoop dir pattern files)

/-- The match of the specification: the file name "with a trailing `.md` or `.txt` extension
stripped equals K when compared case-insensitively". -/
def templateNameMatches (kind fileName : String) : Bool :=
  let ext := Ext fileName
  let stem :=
    if ext = ".md" then TrimSuffix fileName ".md"
    else if ext = ".txt" then TrimSuffix fileName ".txt"
    else fileName
  decide (ToLower stem = kind)

/-- The result of the specification: "the path of the first file, in listing order", whose
name matches, and "the empty string when no file qualifies". -/
def firstTemplatePath (dir kind : String) (files : List String) : String :=
  match files.find? (templateNameMatches kind) with
  | none => ""
  | some fileName => Join [dir, fileName]

/-! ## Theorems -/

/-! ### Lemmas on the argument pipeline -/

theorem Args.mem_Params_of_mem_Words {a : Args} {w : String} (h : w ∈ a.Words) :
    w ∈ a.Params :=
  (List.mem_filter.mp h).1

theorem Args.IndexOfParam_of_mem {a : Args} {x : String} (h : x ∈ a.Params) :
    a.IndexOfParam x = (a.Params.indexOf x : Int) := by
  simp [Args.IndexOfParam, h]

theorem Args.IndexOfParam_of_not_mem {a : Args} {x : String} (h : x ∉ a.Params) :
    a.IndexOfParam x = -1 := by
  simp [Args.IndexOfParam, h]

theorem Args.IndexOfParam_eq_neg_one_iff {a : Args} {x : String} :
    a.IndexOfParam x = -1 ↔ x ∉ a.Params := by
  constructor
  · intro h hx
    rw [Args.IndexOfParam_of_mem hx] at h
    omega
  · exact Args.IndexOfParam_of_not_mem

theorem Args.RemoveParam_IndexOfParam {a : Args} {x : String} (h : x ∈ a.Params) :
    a.RemoveParam (a.IndexOfParam x) = some { a with Params := a.Params.erase x } := by
  have hlt : a.Params.indexOf x < a.Params.length := List.indexOf_lt_length.mpr h
  rw [Args.IndexOfParam_of_mem h]
  simp [Args.RemoveParam, hlt, List.eraseIdx_indexOf_eq_erase]

/-- The branch-name removal of `transformCheckoutArgs` (`if idx >= 0 { RemoveParam(idx) }`)
erases the first occurrence of the name, if there is one. -/
theorem Args.remove_if_found (a : Args) (x : String) :
    (if a.IndexOfParam x ≥ 0 then a.RemoveParam (a.IndexOfParam x) else some a) =
      some { a with Params := a.Params.erase x } := by
  by_cases h : x ∈ a.Params
  · rw [Args.RemoveParam_IndexOfParam h, Args.IndexOfParam_of_mem h]
    simp
  · rw [Args.IndexOfParam_of_not_mem h, List.erase_of_not_mem h]
    simp

theorem splice_take_drop (l : List String) (i : Nat) (items : List String) (h : i < l.length) :
    (l.eraseIdx i).take i ++ items ++ (l.eraseIdx i).drop i =
      l.take i ++ items ++ l.drop (i + 1) := by
  have hlen : (l.take i).length = i := by
    rw [List.length_take]; omega
  rw [List.eraseIdx_eq_take_drop_succ]
  have h1 : (l.take i ++ l.drop (i + 1)).take i = l.take i := by
    rw [List.take_append_eq_append_take, hlen]
    simp
  have h2 : (l.take i ++ l.drop (i + 1)).drop i = l.drop (i + 1) := by
    rw [List.drop_append_eq_append_drop, hlen]
    simp
  rw [h1, h2]

theorem replaceCheckoutParam_of_mem {a : Args} {u : String} (X R : String)
    (h : u ∈ a.Params) :
    replaceCheckoutParam a u X R =
      some { a with Params := spliceFirst a.Params u ["--track", "-B", X, R] } := by
  have hlt : a.Params.indexOf u < a.Params.length := List.indexOf_lt_length.mpr h
  have hle : a.Params.indexOf u ≤ (a.Params.eraseIdx (a.Params.indexOf u)).length := by
    rw [List.length_eraseIdx]
    simp [hlt]
    omega
  simp only [replaceCheckoutParam, Args.IndexOfParam_of_mem h, Args.RemoveParam,
    Args.InsertParam]
  have h0 : (0 : Int) ≤ (a.Params.indexOf u : Int) := Int.ofNat_nonneg _
  have h1 : ((a.Params.indexOf u : Nat) : Int) < (a.Params.length : Int) := by exact_mod_cast hlt
  have h2 : ((a.Params.indexOf u : Nat) : Int) ≤
      ((a.Params.eraseIdx (a.Params.indexOf u)).length : Int) := by exact_mod_cast hle
  simp only [h0, h1, h2, and_self, if_true, Int.toNat_ofNat, true_and]
  rw [splice_take_drop _ _ _ hlt]
  rfl

/-! ### Lemmas on `transformCheckoutArgs` -/

theorem empty_mem_Words {a : Args} (h : "" ∈ a.Params) : "" ∈ a.Words := by
  refine List.mem_filter.mpr ⟨h, ?_⟩
  decide

/-- The URL token is still a parameter after the requested branch name was removed. -/
theorem url_mem_erase_secondWord {a : Args} {U : String} {rest : List String}
    (hwords : a.Words = U :: rest) (hne : U ≠ "") :
    U ∈ a.Params.erase (secondWord rest) := by
  have hU : U ∈ a.Params :=
    Args.mem_Params_of_mem_Words (by rw [hwords]; exact List.mem_cons_self _ _)
  by_cases hN : secondWord rest = U
  · cases rest with
    | nil =>
      exact absurd hN.symm hne
    | cons w ws =>
      simp only [secondWord] at hN
      subst hN
      have h2 : 2 ≤ List.count w a.Words := by
        rw [hwords]; simp
      have h3 : List.count w a.Words ≤ List.count w a.Params :=
        (List.filter_sublist a.Params).count_le w
      have h4 : 0 < List.count w (a.Params.erase w) := by
        rw [List.count_erase_self]; omega
      simpa [secondWord] using (List.count_pos_iff.mp h4)
  · exact (List.mem_erase_of_ne (fun h => hN h.symm)).mpr hU

/-- The checks of lines 40 to 75 passed and the collaborator answered: what is left of the
call is lines 77 to 108. -/
theorem transformCheckoutArgs_validated {env : Env} {args : Args} {U : String}
    {rest : List String} {url : URL} {id : String} {pr : PullRequest}
    (hwords : args.Words = U :: rest) (hparse : env.ParseURL U = some url)
    (hpath : pullURLRegex (env.ProjectPath url) = some id)
    (hb : "-b" ∉ args.Params) (ho : "--orphan" ∉ args.Params)
    (hpr : env.PullRequest url.Project id = .ok pr) :
    transformCheckoutArgs env args =
      match pr.HeadRepo with
      | none =>
        ⟨.returned (some "Error: that fork is not available anymore"),
          { args with Params := args.Params.erase (secondWord rest) }, [(url.Project, id)]⟩
      | some headRepo =>
        match env.LocalRepo with
        | some err =>
          ⟨.exited err, { args with Params := args.Params.erase (secondWord rest) },
            [(url.Project, id)]⟩
        | none =>
          match replaceCheckoutParam
              ⟨args.Params.erase (secondWord rest),
                args.beforeChain ++ queuedCommands env url pr.HeadRef headRepo⟩
              U (if secondWord rest = "" then headRepo.OwnerLogin ++ "-" ++ pr.HeadRef
                 else secondWord rest)
              (headRepo.OwnerLogin ++ "/" ++ pr.HeadRef) with
          | none =>
            ⟨.undefined,
              ⟨args.Params.erase (secondWord rest),
                args.beforeChain ++ queuedCommands env url pr.HeadRef headRepo⟩,
              [(url.Project, id)]⟩
          | some args3 => ⟨.returned none, args3, [(url.Project, id)]⟩ := by
  have hsan : sanitizeCheckoutFlags args = none := by
    simp [sanitizeCheckoutFlags, Args.IndexOfParam_of_not_mem hb,
      Args.IndexOfParam_of_not_mem ho]
  simp only [transformCheckoutArgs, hwords, hparse, hpath, hsan, hpr,
    Args.remove_if_found]
  cases hrepo : pr.HeadRepo with
  | none => rfl
  | some headRepo =>
    cases hl : env.LocalRepo with
    | some err => rfl
    | none =>
      simp only [queuedCommands, Args.Before]
      by_cases hr : env.RemoteByName headRepo.OwnerLogin = true
      · simp [hr]
      · simp [hr]

/-- The successful rewrite, in full: the outcome, the token list, the queue and the call made
to the metadata collaborator. -/
theorem transformCheckoutArgs_rewritten {env : Env} {args : Args} {U : String}
    {rest : List String} {url : URL} {id B : String} {headRepo : Repository}
    (hwords : args.Words = U :: rest) (hne : U ≠ "") (hparse : env.ParseURL U = some url)
    (hpath : pullURLRegex (env.ProjectPath url) = some id)
    (hb : "-b" ∉ args.Params) (ho : "--orphan" ∉ args.Params)
    (hpr : env.PullRequest url.Project id = .ok ⟨B, some headRepo⟩)
    (hlocal : env.LocalRepo = none) :
    transformCheckoutArgs env args =
      ⟨.returned none,
        ⟨spliceFirst (args.Params.erase (secondWord rest)) U
            ["--track", "-B",
              if secondWord rest = "" then headRepo.OwnerLogin ++ "-" ++ B else secondWord rest,
              headRepo.OwnerLogin ++ "/" ++ B],
          args.beforeChain ++ queuedCommands env url B headRepo⟩,
        [(url.Project, id)]⟩ := by
  rw [transformCheckoutArgs_validated hwords hparse hpath hb ho hpr]
  simp only [hlocal]
  rw [replaceCheckoutParam_of_mem _ _ (url_mem_erase_secondWord hwords hne)]

theorem pullURLRegex_of_exactPullPath {s : String} (h : exactPullPath s = true) :
    pullURLRegex s = some (pullId s) := by
  simp only [exactPullPath, Bool.and_eq_true, Bool.not_eq_true', List.all_eq_true] at h
  obtain ⟨⟨h1, h2⟩, h3⟩ := h
  have h4 : (s.toList.drop 5).takeWhile isDigit = s.toList.drop 5 :=
    List.takeWhile_eq_self_iff.mpr h3
  simp only [pullURLRegex, h1, if_true, h4, h2, pullId]
  rfl

theorem pullURLRegex_eq_none_iff (s : String) :
    pullURLRegex s = none ↔ startsWithPullDigit s = false := by
  unfold pullURLRegex startsWithPullDigit
  by_cases h1 : "pull/".toList.isPrefixOf s.toList = true
  · simp only [h1, if_true, Bool.true_and]
    cases hd : s.toList.drop 5 with
    | nil => simp
    | cons d t =>
      by_cases h2 : isDigit d = true
      · simp [List.takeWhile, h2]
      · simp [List.takeWhile, h2]
  · rw [Bool.not_eq_true] at h1
    rw [h1]
    simp

theorem pullURLRegex_of_startsWithPullDigit {s : String}
    (h : startsWithPullDigit s = true) : pullURLRegex s = some (leadingDigits s) := by
  cases hre : pullURLRegex s with
  | none =>
    rw [(pullURLRegex_eq_none_iff s).mp hre] at h
    exact absurd h (by decide)
  | some id =>
    simp only [pullURLRegex] at hre
    split at hre
    · split at hre
      · exact absurd hre (by simp)
      · rw [← hre]
        rfl
    · exact absurd hre (by simp)

theorem startsWithPullDigit_of_exactPullPath {s : String} (h : exactPullPath s = true) :
    startsWithPullDigit s = true := by
  have h1 := pullURLRegex_of_exactPullPath h
  by_contra h2
  rw [Bool.not_eq_true] at h2
  rw [(pullURLRegex_eq_none_iff s).mpr h2] at h1
  exact Option.noConfusion h1

theorem erase_secondWord_eq {a : Args} {U : String} {rest : List String}
    (hwords : a.Words = U :: rest) (hne : U ≠ "") :
    a.Params.erase (secondWord rest) = withoutSecondWord a.Params rest := by
  cases rest with
  | nil =>
    have h : "" ∉ a.Params := by
      intro h
      have h1 := empty_mem_Words h
      rw [hwords] at h1
      simp only [List.mem_singleton] at h1
      exact hne h1.symm
    simp [secondWord, withoutSecondWord, List.erase_of_not_mem h]
  | cons w ws => rfl

theorem newBranchName_eq (rest : List String) (owner branch : String) :
    (if secondWord rest = "" then owner ++ "-" ++ branch else secondWord rest) =
      newBranchNameFor rest owner branch := by
  cases rest <;> simp [secondWord, newBranchNameFor]

/-! ### The checkout rewriter: claims -/

/-- C1: when the first positional token `U` parses to a URL whose project path is exactly
`pull/<digits>`, neither `-b` nor `--orphan` is a token, the metadata collaborator returns
head branch `B` and a head repository owned by `O`, and the local repository is available
(so that `utils.Check` lets the call go on), `transformCheckoutArgs` returns `nil` and the
token list is the input list with the first occurrence of the second positional token
removed, if there is one, and then the first occurrence of `U` replaced in place by
`--track -B X O/B`, where `X` is the second positional token if it is given and not empty and
`O-B` otherwise. The index of `U` used by `replaceCheckoutParam` is an index of the token
list, and the tokens kept are the input tokens but one or two, in their order. A token that
parses as a URL is not the empty string. -/
theorem transformCheckoutArgs_replaces_url (env : Env) (args : Args) (U : String)
    (rest : List String) (url : URL) (B : String) (headRepo : Repository)
    (hwords : args.Words = U :: rest) (hne : U ≠ "")
    (hparse : env.ParseURL U = some url)
    (hpath : exactPullPath (env.ProjectPath url) = true)
    (hb : "-b" ∉ args.Params) (ho : "--orphan" ∉ args.Params)
    (hpr : env.PullRequest url.Project (pullId (env.ProjectPath url)) =
      .ok ⟨B, some headRepo⟩)
    (hlocal : env.LocalRepo = none) :
    (transformCheckoutArgs env args).outcome = .returned none ∧
    (transformCheckoutArgs env args).args.Params =
      (withoutSecondWord args.Params rest).take
          ((withoutSecondWord args.Params rest).indexOf U) ++
        ["--track", "-B", newBranchNameFor rest headRepo.OwnerLogin B,
          headRepo.OwnerLogin ++ "/" ++ B] ++
        (withoutSecondWord args.Params rest).drop
          ((withoutSecondWord args.Params rest).indexOf U + 1) ∧
    (withoutSecondWord args.Params rest).indexOf U <
      (withoutSecondWord args.Params rest).length ∧
    ((withoutSecondWord args.Params rest).take
          ((withoutSecondWord args.Params rest).indexOf U) ++
        (withoutSecondWord args.Params rest).drop
          ((withoutSecondWord args.Params rest).indexOf U + 1)).Sublist args.Params := by
  have hmem : U ∈ withoutSecondWord args.Params rest := by
    rw [← erase_secondWord_eq hwords hne]
    exact url_mem_erase_secondWord hwords hne
  have hsub : (withoutSecondWord args.Params rest).Sublist args.Params := by
    cases rest with
    | nil => exact List.Sublist.refl _
    | cons w ws => exact List.erase_sublist _ _
  rw [transformCheckoutArgs_rewritten hwords hne hparse
    (pullURLRegex_of_exactPullPath hpath) hb ho hpr hlocal]
  refine ⟨rfl, ?_, List.indexOf_lt_length.mpr hmem, ?_⟩
  · simp only [spliceFirst, erase_secondWord_eq hwords hne, newBranchName_eq]
  · rw [← List.eraseIdx_eq_take_drop_succ]
    exact (List.eraseIdx_sublist _ _).trans hsub

/-- A run of C1: `hub checkout -f <url> mybranch -q`. -/
theorem transformCheckoutArgs_replaces_url_witness :
    (transformCheckoutArgs (demoEnv [] none)
      ⟨["-f", "https://github.com/OWNER/REPO/pull/73", "mybranch", "-q"], []⟩).outcome =
        .returned none ∧
    (transformCheckoutArgs (demoEnv [] none)
      ⟨["-f", "https://github.com/OWNER/REPO/pull/73", "mybranch", "-q"], []⟩).args.Params =
        ["-f", "--track", "-B", "mybranch", "OWNER2/feature", "-q"] :=
  have h := transformCheckoutArgs_replaces_url (demoEnv [] none)
    ⟨["-f", "https://github.com/OWNER/REPO/pull/73", "mybranch", "-q"], []⟩
    "https://github.com/OWNER/REPO/pull/73" ["mybranch"]
    ⟨⟨"REPO", "OWNER", "github.com", "https"⟩, "pull/73"⟩ "feature" ⟨"REPO", "OWNER2", false⟩
    (by decide) (by decide) (by decide) (by decide) (by decide) (by decide) rfl rfl
  ⟨h.1, h.2.1.trans (by decide)⟩

/-- C2: for every successful rewrite (the first positional token parses to a URL whose
project path is exactly `pull/<digits>`, the collaborator returns head branch `B` and a head
repository `R` owned by `O`, and `transformCheckoutArgs` returns `nil`), the queue of
auxiliary commands is the queue before the call followed, when a local remote `O` exists, by
`git remote set-branches --add O B` and `git fetch O +refs/heads/B:refs/remotes/O/B`, and
otherwise by the single `git remote add -f --no-tags -t B O <clone-url>`, the URL being the
one derived from the original project for `(R, O, private)`. -/
theorem transformCheckoutArgs_queues (env : Env) (args : Args) (U : String)
    (rest : List String) (url : URL) (B : String) (headRepo : Repository)
    (hwords : args.Words = U :: rest)
    (hparse : env.ParseURL U = some url)
    (hpath : exactPullPath (env.ProjectPath url) = true)
    (hpr : env.PullRequest url.Project (pullId (env.ProjectPath url)) =
      .ok ⟨B, some headRepo⟩)
    (hok : (transformCheckoutArgs env args).outcome = .returned none) :
    (env.RemoteByName headRepo.OwnerLogin = true →
      (transformCheckoutArgs env args).args.beforeChain =
        args.beforeChain ++
          [["git", "remote", "set-branches", "--add", headRepo.OwnerLogin, B],
           ["git", "fetch", headRepo.OwnerLogin,
            "+refs/heads/" ++ B ++ ":refs/remotes/" ++ headRepo.OwnerLogin ++ "/" ++ B]]) ∧
    (env.RemoteByName headRepo.OwnerLogin = false →
      (transformCheckoutArgs env args).args.beforeChain =
        args.beforeChain ++
          [["git", "remote", "add", "-f", "--no-tags", "-t", B, headRepo.OwnerLogin,
            env.GitURL url.Project headRepo.Name headRepo.OwnerLogin headRepo.Private]]) := by
  have hre := pullURLRegex_of_exactPullPath hpath
  have hsan : sanitizeCheckoutFlags args = none := by
    by_contra hs
    obtain ⟨err, herr⟩ := Option.ne_none_iff_exists'.mp hs
    simp [transformCheckoutArgs, hwords, hparse, hre, herr] at hok
  have hb : "-b" ∉ args.Params := by
    intro h
    have := Args.IndexOfParam_eq_neg_one_iff.not.mpr (not_not.mpr h)
    simp [sanitizeCheckoutFlags, this] at hsan
  have ho : "--orphan" ∉ args.Params := by
    intro h
    have := Args.IndexOfParam_eq_neg_one_iff.not.mpr (not_not.mpr h)
    simp only [sanitizeCheckoutFlags] at hsan
    split at hsan
    · exact absurd hsan (by simp)
    · simp [this] at hsan
  have hv := transformCheckoutArgs_validated hwords hparse hre hb ho hpr
  simp only at hv
  cases hl : env.LocalRepo with
  | some err =>
    rw [hv, hl] at hok
    exact absurd hok (by simp)
  | none =>
    rw [hl] at hv
    cases hrep : replaceCheckoutParam
        ⟨args.Params.erase (secondWord rest),
          args.beforeChain ++ queuedCommands env url B headRepo⟩
        U (if secondWord rest = "" then headRepo.OwnerLogin ++ "-" ++ B else secondWord rest)
        (headRepo.OwnerLogin ++ "/" ++ B) with
    | none =>
      rw [hrep] at hv
      rw [hv] at hok
      exact absurd hok (by simp)
    | some args3 =>
      rw [hrep] at hv
      have hchain : args3.beforeChain =
          args.beforeChain ++ queuedCommands env url B headRepo := by
        simp only [replaceCheckoutParam, Args.RemoveParam, Args.InsertParam] at hrep
        split at hrep
        · exact absurd hrep (by simp)
        · rename_i a1 h1
          split at h1
          · injection h1 with h1
            subst h1
            split at hrep
            · injection hrep with hrep
              subst hrep
              rfl
            · exact absurd hrep (by simp)
          · exact absurd h1 (by simp)
      rw [hv]
      constructor
      · intro hr
        simp only [hchain, queuedCommands, hr, if_true]
      · intro hr
        simp [hchain, queuedCommands, hr]

/-- A run of C2 with a local remote named `OWNER2`. -/
theorem transformCheckoutArgs_queues_witness :
    (transformCheckoutArgs (demoEnv ["origin", "OWNER2"] none)
      ⟨["https://github.com/OWNER/REPO/pull/73"], [["git", "stash"]]⟩).args.beforeChain =
      [["git", "stash"],
       ["git", "remote", "set-branches", "--add", "OWNER2", "feature"],
       ["git", "fetch", "OWNER2", "+refs/heads/feature:refs/remotes/OWNER2/feature"]] :=
  ((transformCheckoutArgs_queues (demoEnv ["origin", "OWNER2"] none)
    ⟨["https://github.com/OWNER/REPO/pull/73"], [["git", "stash"]]⟩
    "https://github.com/OWNER/REPO/pull/73" []
    ⟨⟨"REPO", "OWNER", "github.com", "https"⟩, "pull/73"⟩ "feature" ⟨"REPO", "OWNER2", false⟩
    (by decide) (by decide) (by decide) rfl (by decide)).1 (by decide)).trans (by decide)

/-- C3: when there is no positional token, or the first positional token does not parse as a
repository URL, or it parses to a URL whose project path does not start with `pull/`
followed by a decimal digit, `transformCheckoutArgs` returns `nil`, leaves the token list
and the queue as they were and does not call the metadata collaborator. -/
theorem transformCheckoutArgs_passes_through (env : Env) (args : Args)
    (h : args.Words = [] ∨
      (∃ U rest, args.Words = U :: rest ∧ env.ParseURL U = none) ∨
      (∃ U rest url, args.Words = U :: rest ∧ env.ParseURL U = some url ∧
        startsWithPullDigit (env.ProjectPath url) = false)) :
    transformCheckoutArgs env args = ⟨.returned none, args, []⟩ := by
  rcases h with h | ⟨U, rest, hw, hp⟩ | ⟨U, rest, url, hw, hp, hpath⟩
  · simp only [transformCheckoutArgs, h]
  · simp only [transformCheckoutArgs, hw, hp]
  · simp only [transformCheckoutArgs, hw, hp, (pullURLRegex_eq_none_iff _).mpr hpath]

/-- Runs of C3: no word at all, a branch name, and the paths `pull/abc` and `issues/5`. -/
theorem transformCheckoutArgs_passes_through_witness :
    transformCheckoutArgs (demoEnv [] none) ⟨["-q"], []⟩ = ⟨.returned none, ⟨["-q"], []⟩, []⟩ ∧
    transformCheckoutArgs (demoEnv [] none) ⟨["-b", "master"], []⟩ =
      ⟨.returned none, ⟨["-b", "master"], []⟩, []⟩ ∧
    transformCheckoutArgs (demoEnv [] none)
      ⟨["https://github.com/OWNER/REPO/pull/abc", "-b"], []⟩ =
      ⟨.returned none, ⟨["https://github.com/OWNER/REPO/pull/abc", "-b"], []⟩, []⟩ ∧
    transformCheckoutArgs (demoEnv [] none) ⟨["https://github.com/OWNER/REPO/issues/5"], []⟩ =
      ⟨.returned none, ⟨["https://github.com/OWNER/REPO/issues/5"], []⟩, []⟩ :=
  ⟨transformCheckoutArgs_passes_through _ _ (Or.inl (by decide)),
   transformCheckoutArgs_passes_through _ _
    (Or.inr (Or.inl ⟨"master", [], by decide, by decide⟩)),
   transformCheckoutArgs_passes_through _ _
    (Or.inr (Or.inr ⟨"https://github.com/OWNER/REPO/pull/abc", [],
      ⟨⟨"REPO", "OWNER", "github.com", "https"⟩, "pull/abc"⟩,
      by decide, by decide, by decide⟩)),
   transformCheckoutArgs_passes_through _ _
    (Or.inr (Or.inr ⟨"https://github.com/OWNER/REPO/issues/5", [],
      ⟨⟨"REPO", "OWNER", "github.com", "https"⟩, "issues/5"⟩,
      by decide, by decide, by decide⟩))⟩

/-- C4: when the first positional token parses to a URL whose project path is exactly
`pull/<digits>` and `-b` or `--orphan` is a token, at any position, `transformCheckoutArgs`
returns the error that names the flag (the one for `-b` when both are there), leaves the
token list and the queue as they were and does not call the metadata collaborator. -/
theorem transformCheckoutArgs_rejects_flags (env : Env) (args : Args) (U : String)
    (rest : List String) (url : URL)
    (hwords : args.Words = U :: rest)
    (hparse : env.ParseURL U = some url)
    (hpath : exactPullPath (env.ProjectPath url) = true)
    (hflag : "-b" ∈ args.Params ∨ "--orphan" ∈ args.Params) :
    transformCheckoutArgs env args =
      ⟨.returned (some (if "-b" ∈ args.Params then
          "Unsupported flag -b when checking out pull request"
        else "Unsupported flag --orphan when checking out pull request")), args, []⟩ := by
  have hre := pullURLRegex_of_exactPullPath hpath
  by_cases hb : "-b" ∈ args.Params
  · have h1 : args.IndexOfParam "-b" ≠ -1 :=
      Args.IndexOfParam_eq_neg_one_iff.not.mpr (not_not.mpr hb)
    simp [transformCheckoutArgs, hwords, hparse, hre, sanitizeCheckoutFlags, h1, hb]
  · have ho : "--orphan" ∈ args.Params := hflag.resolve_left hb
    have h1 : args.IndexOfParam "-b" = -1 := Args.IndexOfParam_of_not_mem hb
    have h2 : args.IndexOfParam "--orphan" ≠ -1 :=
      Args.IndexOfParam_eq_neg_one_iff.not.mpr (not_not.mpr ho)
    simp [transformCheckoutArgs, hwords, hparse, hre, sanitizeCheckoutFlags, h1, h2, hb]

/-- A run of C4 with both flags, `--orphan` first. -/
theorem transformCheckoutArgs_rejects_flags_witness :
    transformCheckoutArgs (demoEnv [] none)
      ⟨["--orphan", "https://github.com/OWNER/REPO/pull/73", "-b", "x"], []⟩ =
      ⟨.returned (some "Unsupported flag -b when checking out pull request"),
        ⟨["--orphan", "https://github.com/OWNER/REPO/pull/73", "-b", "x"], []⟩, []⟩ :=
  (transformCheckoutArgs_rejects_flags (demoEnv [] none)
    ⟨["--orphan", "https://github.com/OWNER/REPO/pull/73", "-b", "x"], []⟩
    "https://github.com/OWNER/REPO/pull/73" ["x"]
    ⟨⟨"REPO", "OWNER", "github.com", "https"⟩, "pull/73"⟩
    (by decide) (by decide) (by decide) (Or.inl (by decide))).trans (by decide)

/-- C5: when the first positional token parses to a URL whose project path is exactly
`pull/<digits>` and no `-b` or `--orphan` is a token: if the metadata collaborator fails,
`transformCheckoutArgs` returns the collaborator's error and the invocation is as it was; if
the collaborator answers with no head repository, the error is
`Error: that fork is not available anymore`. In both cases nothing is added to the queue and
no token is inserted: the token list is a sublist of the input list and still holds the URL
token (a token that parses as a URL is not the empty string). -/
theorem transformCheckoutArgs_collaborator_errors (env : Env) (args : Args) (U : String)
    (rest : List String) (url : URL)
    (hwords : args.Words = U :: rest) (hne : U ≠ "")
    (hparse : env.ParseURL U = some url)
    (hpath : exactPullPath (env.ProjectPath url) = true)
    (hb : "-b" ∉ args.Params) (ho : "--orphan" ∉ args.Params) :
    (∀ err, env.PullRequest url.Project (pullId (env.ProjectPath url)) = .error err →
      (transformCheckoutArgs env args).outcome = .returned (some err) ∧
      (transformCheckoutArgs env args).args = args) ∧
    (∀ B, env.PullRequest url.Project (pullId (env.ProjectPath url)) = .ok ⟨B, none⟩ →
      (transformCheckoutArgs env args).outcome =
        .returned (some "Error: that fork is not available anymore") ∧
      (transformCheckoutArgs env args).args.beforeChain = args.beforeChain ∧
      (transformCheckoutArgs env args).args.Params = withoutSecondWord args.Params rest ∧
      (transformCheckoutArgs env args).args.Params.Sublist args.Params ∧
      U ∈ (transformCheckoutArgs env args).args.Params) := by
  have hre := pullURLRegex_of_exactPullPath hpath
  have hsan : sanitizeCheckoutFlags args = none := by
    simp [sanitizeCheckoutFlags, Args.IndexOfParam_of_not_mem hb,
      Args.IndexOfParam_of_not_mem ho]
  constructor
  · intro err herr
    simp only [transformCheckoutArgs, hwords, hparse, hre, hsan, herr, and_self]
  · intro B hB
    rw [transformCheckoutArgs_validated hwords hparse hre hb ho hB]
    refine ⟨rfl, rfl, erase_secondWord_eq hwords hne, List.erase_sublist _ _, ?_⟩
    exact url_mem_erase_secondWord hwords hne

/-- Runs of C5: pull request 75 is unknown to the collaborator, 74 is from a deleted fork. -/
theorem transformCheckoutArgs_collaborator_errors_witness :
    (transformCheckoutArgs (demoEnv [] none)
      ⟨["https://github.com/OWNER/REPO/pull/75", "b"], []⟩).outcome =
        .returned (some "Not Found") ∧
    (transformCheckoutArgs (demoEnv [] none)
      ⟨["https://github.com/OWNER/REPO/pull/74", "b"], []⟩).outcome =
        .returned (some "Error: that fork is not available anymore") ∧
    (transformCheckoutArgs (demoEnv [] none)
      ⟨["https://github.com/OWNER/REPO/pull/74", "b"], []⟩).args.Params =
        ["https://github.com/OWNER/REPO/pull/74"] :=
  have h75 := (transformCheckoutArgs_collaborator_errors (demoEnv [] none)
      ⟨["https://github.com/OWNER/REPO/pull/75", "b"], []⟩
      "https://github.com/OWNER/REPO/pull/75" ["b"]
      ⟨⟨"REPO", "OWNER", "github.com", "https"⟩, "pull/75"⟩
      (by decide) (by decide) (by decide) (by decide) (by decide) (by decide)).1
        "Not Found" rfl
  have h74 := (transformCheckoutArgs_collaborator_errors (demoEnv [] none)
      ⟨["https://github.com/OWNER/REPO/pull/74", "b"], []⟩
      "https://github.com/OWNER/REPO/pull/74" ["b"]
      ⟨⟨"REPO", "OWNER", "github.com", "https"⟩, "pull/74"⟩
      (by decide) (by decide) (by decide) (by decide) (by decide) (by decide)).2 "gone" rfl
  ⟨h75.1, h74.1, h74.2.2.1.trans (by decide)⟩

/-- C6, as stated, fails: the first positional token parses to a URL whose project path,
`pull/73/files`, is not exactly `pull/<digits>`, and the call is not a no-op: the
collaborator is asked for pull request 73, a command is queued and the URL token is
replaced. -/
theorem transformCheckoutArgs_rewrites_pull_files :
    Args.Words ⟨["https://github.com/OWNER/REPO/pull/73/files"], []⟩ =
      ["https://github.com/OWNER/REPO/pull/73/files"] ∧
    (demoEnv [] none).ParseURL "https://github.com/OWNER/REPO/pull/73/files" =
      some ⟨⟨"REPO", "OWNER", "github.com", "https"⟩, "pull/73/files"⟩ ∧
    exactPullPath "pull/73/files" = false ∧
    transformCheckoutArgs (demoEnv [] none)
      ⟨["https://github.com/OWNER/REPO/pull/73/files"], []⟩ ≠
      ⟨.returned none, ⟨["https://github.com/OWNER/REPO/pull/73/files"], []⟩, []⟩ ∧
    transformCheckoutArgs (demoEnv [] none)
      ⟨["https://github.com/OWNER/REPO/pull/73/files"], []⟩ =
      ⟨.returned none,
        ⟨["--track", "-B", "OWNER2-feature", "OWNER2/feature"],
         [["git", "remote", "add", "-f", "--no-tags", "-t", "feature", "OWNER2",
           "git://github.com/OWNER2/REPO.git"]]⟩,
        [(⟨"REPO", "OWNER", "github.com", "https"⟩, "73")]⟩ := by
  decide

/-- C6, amended: when the first positional token parses to a URL, `transformCheckoutArgs` is
a no-op (returns `nil`, leaves the token list and the queue as they were, does not call the
metadata collaborator) if and only if the project path does not begin with `pull/` followed
by a decimal digit. What follows the digits does not matter: when the path begins with
`pull/` and a digit and the flags are accepted, the metadata collaborator is called once, for
the run of digits right after `pull/`. -/
theorem transformCheckoutArgs_noop_iff (env : Env) (args : Args) (U : String)
    (rest : List String) (url : URL)
    (hwords : args.Words = U :: rest)
    (hparse : env.ParseURL U = some url) :
    (transformCheckoutArgs env args = ⟨.returned none, args, []⟩ ↔
      startsWithPullDigit (env.ProjectPath url) = false) ∧
    (startsWithPullDigit (env.ProjectPath url) = true →
      "-b" ∉ args.Params → "--orphan" ∉ args.Params →
      (transformCheckoutArgs env args).prCalls =
        [(url.Project, leadingDigits (env.ProjectPath url))]) := by
  refine ⟨⟨?_, ?_⟩, ?_⟩
  · intro h
    by_contra hp
    have hre : pullURLRegex (env.ProjectPath url) ≠ none :=
      fun hn => hp ((pullURLRegex_eq_none_iff _).mp hn)
    obtain ⟨id, hid⟩ := Option.ne_none_iff_exists'.mp hre
    have h1 : (transformCheckoutArgs env args).outcome = .returned none := by rw [h]
    have h2 : (transformCheckoutArgs env args).prCalls = [] := by rw [h]
    simp only [transformCheckoutArgs, hwords, hparse, hid] at h1 h2
    repeat' split at h2
    all_goals simp_all
  · intro hp
    simp only [transformCheckoutArgs, hwords, hparse, (pullURLRegex_eq_none_iff _).mpr hp]
  · intro hp hb ho
    have hre := pullURLRegex_of_startsWithPullDigit hp
    cases hpr : env.PullRequest url.Project (leadingDigits (env.ProjectPath url)) with
    | error err =>
      have hsan : sanitizeCheckoutFlags args = none := by
        simp [sanitizeCheckoutFlags, Args.IndexOfParam_of_not_mem hb,
          Args.IndexOfParam_of_not_mem ho]
      simp only [transformCheckoutArgs, hwords, hparse, hre, hsan, hpr]
    | ok pr =>
      rw [transformCheckoutArgs_validated hwords hparse hre hb ho hpr]
      cases pr.HeadRepo with
      | none => rfl
      | some headRepo =>
        cases env.LocalRepo with
        | some err => rfl
        | none =>
          simp only
          split <;> rfl

/-- Runs of the amended C6: `pull/73abc` is rewritten, `pulls/73` is not. -/
theorem transformCheckoutArgs_noop_iff_witness :
    transformCheckoutArgs (demoEnv [] none) ⟨["https://github.com/OWNER/REPO/pull/73abc"], []⟩ ≠
      ⟨.returned none, ⟨["https://github.com/OWNER/REPO/pull/73abc"], []⟩, []⟩ ∧
    transformCheckoutArgs (demoEnv [] none) ⟨["https://github.com/OWNER/REPO/pulls/73"], []⟩ =
      ⟨.returned none, ⟨["https://github.com/OWNER/REPO/pulls/73"], []⟩, []⟩ :=
  ⟨fun h => absurd ((transformCheckoutArgs_noop_iff (demoEnv [] none)
      ⟨["https://github.com/OWNER/REPO/pull/73abc"], []⟩
      "https://github.com/OWNER/REPO/pull/73abc" []
      ⟨⟨"REPO", "OWNER", "github.com", "https"⟩, "pull/73abc"⟩
      (by decide) (by decide)).1.mp h) (by decide),
   (transformCheckoutArgs_noop_iff (demoEnv [] none)
      ⟨["https://github.com/OWNER/REPO/pulls/73"], []⟩
      "https://github.com/OWNER/REPO/pulls/73" []
      ⟨⟨"REPO", "OWNER", "github.com", "https"⟩, "pulls/73"⟩
      (by decide) (by decide)).1.mpr (by decide)⟩

/-! ### Trimming and line splitting -/

theorem trimSpaceChars_getLast (l : List Char) (c : Char)
    (h : (trimSpaceChars l).getLast? = some c) : isSpace c = false := by
  simp only [trimSpaceChars, List.getLast?_reverse] at h
  have h1 := List.head?_dropWhile_not isSpace (l.dropWhile isSpace).reverse
  rw [h] at h1
  simpa using h1

theorem trimSpaceChars_head (l : List Char) (c : Char)
    (h : (trimSpaceChars l).head? = some c) : isSpace c = false := by
  simp only [trimSpaceChars, List.head?_reverse] at h
  have hne : (l.dropWhile isSpace).reverse.dropWhile isSpace ≠ [] := by
    intro h0
    rw [h0] at h
    simp at h
  have hsuf := List.dropWhile_suffix (l := (l.dropWhile isSpace).reverse) isSpace
  have h2 := hsuf.getLast hne
  have h3 : ((l.dropWhile isSpace).reverse.dropWhile isSpace).getLast? =
      ((l.dropWhile isSpace).reverse).getLast? := by
    rw [List.getLast?_eq_getLast _ hne, h2, ← List.getLast?_eq_getLast]
  rw [h3, List.getLast?_reverse] at h
  have h1 := List.head?_dropWhile_not isSpace l
  rw [h] at h1
  simpa using h1

theorem gitOutput_loop (f : String → String) (l : List String) (init : List String) :
    l.foldl (fun outputs line => if f line ≠ "" then outputs ++ [f line] else outputs) init =
      init ++ (l.map f).filter (fun x => decide (x ≠ "")) := by
  induction l generalizing init with
  | nil => simp
  | cons x xs ih =>
    simp only [List.foldl_cons, List.map_cons, ih]
    by_cases hx : f x = ""
    · simp [hx]
    · simp [hx, List.filter_cons]

theorem gitOutputLines_eq (out : String) :
    gitOutputLines out =
      ((SplitNewline out).map TrimSpace).filter (fun x => decide (x ≠ "")) := by
  have h := gitOutput_loop TrimSpace (SplitNewline out) []
  simpa [gitOutputLines] using h

/-! ### Command execution: claims -/

/-- C7: the lines returned by `gitOutput` are the output of the tool split on `\n`, each
piece trimmed with `strings.TrimSpace`, and the pieces that are empty after trimming left
out, in the original order. No returned line is empty, none starts or ends with white space,
the lines are a subsequence of the trimmed pieces, and they depend on the output text only,
not on the error that the tool reported, which is returned as it is. -/
theorem gitOutput_lines (g : Git) (input : List String) :
    (gitOutput g input).1 =
      ((SplitNewline (g.CombinedOutput (gitOutputCmd g input)).1).map TrimSpace).filter
        (fun x => decide (x ≠ "")) ∧
    (∀ line ∈ (gitOutput g input).1,
      line ≠ "" ∧
      (∀ c, line.toList.head? = some c → isSpace c = false) ∧
      (∀ c, line.toList.getLast? = some c → isSpace c = false)) ∧
    ((gitOutput g input).1).Sublist
      ((SplitNewline (g.CombinedOutput (gitOutputCmd g input)).1).map TrimSpace) ∧
    (gitOutput g input).2 = (g.CombinedOutput (gitOutputCmd g input)).2 ∧
    (∀ err : Option String,
      (gitOutput { g with CombinedOutput := fun c => ((g.CombinedOutput c).1, err) } input).1 =
        (gitOutput g input).1) := by
  have heq : (gitOutput g input).1 =
      ((SplitNewline (g.CombinedOutput (gitOutputCmd g input)).1).map TrimSpace).filter
        (fun x => decide (x ≠ "")) := gitOutputLines_eq _
  refine ⟨heq, ?_, ?_, rfl, fun err => rfl⟩
  · intro line hline
    rw [heq, List.mem_filter, List.mem_map] at hline
    obtain ⟨⟨piece, _, hp⟩, hne⟩ := hline
    refine ⟨by simpa using hne, ?_, ?_⟩
    · intro c hc
      rw [← hp] at hc
      exact trimSpaceChars_head piece.toList c hc
    · intro c hc
      rw [← hp] at hc
      exact trimSpaceChars_getLast piece.toList c hc
  · rw [heq]
    exact List.filter_sublist _

/-- A run of C7 on an output with blank lines, a carriage return and a no-break space. -/
theorem gitOutput_lines_example :
    (gitOutput ⟨["-C", "/repo"], fun _ => ("  a b \n\n\t\nc\r\n d", some "exit status 1"),
        .ok "/"⟩ ["remote", "-v"]).1 = ["a b", "c", "d"] := by
  decide

theorem foldl_WithArg (c : Cmd) (l : List String) :
    l.foldl Cmd.WithArg c = { c with Args := c.Args ++ l } := by
  induction l generalizing c with
  | nil => simp
  | cons x xs ih => simp [List.foldl_cons, ih, Cmd.WithArg]

/-- Both `Run` and `gitOutput` hand the tool all the global flags, in registration order, and
then the arguments of the subcommand, in the order given. -/
theorem Run_gitOutput_GlobalFlags_first (g : Git) (command : String) (args : List String) :
    (RunCmd g command args).Args = g.GlobalFlags ++ command :: args ∧
    (gitOutputCmd g args).Args = g.GlobalFlags ++ args := by
  simp [RunCmd, gitOutputCmd, foldl_WithArg, Cmd.WithArg, Cmd.New]

/-- C8 at `GlobalFlags = ["-C", "/repo"]`: `Run` and `gitOutput` put the two flags in front
of their arguments, and `Show`, `Log`, `IsGitDir` and `ForwardGitHelp` hand the tool their
own arguments only. -/
theorem Show_Log_without_GlobalFlags :
    (RunCmd ⟨["-C", "/repo"], fun _ => ("", none), .ok "/"⟩ "fetch" ["origin"]).Args =
      ["-C", "/repo", "fetch", "origin"] ∧
    (gitOutputCmd ⟨["-C", "/repo"], fun _ => ("", none), .ok "/"⟩ ["remote", "-v"]).Args =
      ["-C", "/repo", "remote", "-v"] ∧
    (ShowCmd ⟨["-C", "/repo"], fun _ => ("", none), .ok "/"⟩ "HEAD").Args =
      ["show", "-s", "--format=%s%n%+b", "HEAD"] ∧
    (LogCmd ⟨["-C", "/repo"], fun _ => ("", none), .ok "/"⟩ "a" "b").Args =
      ["log", "--no-color", "--format=%h (%aN, %ar)%n%w(78,3,3)%s%n%+b", "--cherry",
        "a...b"] ∧
    (IsGitDirCmd ⟨["-C", "/repo"], fun _ => ("", none), .ok "/"⟩ "x").Args =
      ["--git-dir=x", "rev-parse", "--git-dir"] ∧
    (ForwardGitHelpCmd ⟨["-C", "/repo"], fun _ => ("", none), .ok "/"⟩).Args = ["help"] := by
  decide

/-! ### Lemmas on `Dir` -/

theorem dot_or_mk_ne_empty (out : List Char) :
    (if out = [] then "." else String.mk out) ≠ "" := by
  by_cases h : out = []
  · rw [if_pos h]
    decide
  · rw [if_neg h]
    intro h1
    exact h (congrArg String.data h1)

theorem Clean_ne_empty (path : String) : Clean path ≠ "" := by
  unfold Clean
  by_cases h : path = ""
  · rw [if_pos h]
    decide
  · rw [if_neg h]
    exact dot_or_mk_ne_empty _

theorem IsAbs_ne_empty {path : String} (h : IsAbs path = true) : path ≠ "" := by
  intro h1
  subst h1
  exact absurd h (by decide)

theorem Dir_of_cached (g : Git) {cachedDir : String} (h : cachedDir ≠ "") :
    Dir g cachedDir = ⟨.ok cachedDir, cachedDir, []⟩ := by
  simp [Dir, h]

theorem Dir_inv (g : Git) (cachedDir : String) : DirInv cachedDir (Dir g cachedDir) := by
  unfold Dir
  split
  · rename_i h
    exact ⟨h, rfl, Or.inr rfl⟩
  · rename_i h
    have h0 : cachedDir = "" := not_not.mp h
    simp only
    split
    · rfl
    · split
      · rfl
      · split
        · rfl
        · rename_i gitDir _ _
          split
          · split
            · rfl
            · exact ⟨Clean_ne_empty _, rfl, Or.inl h0⟩
          · rename_i habs
            refine ⟨IsAbs_ne_empty ?_, rfl, Or.inl h0⟩
            simpa using habs

theorem Dir_ok {g : Git} {cachedDir d : String} (h : (Dir g cachedDir).outcome = .ok d) :
    d ≠ "" ∧ (Dir g cachedDir).cachedDir = d ∧ (cachedDir = "" ∨ cachedDir = d) := by
  have hinv := Dir_inv g cachedDir
  unfold DirInv at hinv
  rw [h] at hinv
  exact hinv

theorem runDirs_of_cached {d : String} (h : d ≠ "") (gs : List Git) :
    ∀ r ∈ runDirs gs d, r = ⟨.ok d, d, []⟩ := by
  induction gs with
  | nil => intro r hr; simp [runDirs] at hr
  | cons g gs ih =>
    intro r hr
    simp only [runDirs, Dir_of_cached g h, List.mem_cons] at hr
    rcases hr with hr | hr
    · exact hr
    · exact ih r hr

theorem length_runDirs (gs : List Git) (cachedDir : String) :
    (runDirs gs cachedDir).length = gs.length := by
  induction gs generalizing cachedDir with
  | nil => rfl
  | cons g gs ih => simp [runDirs, ih]

/-! ### Directory resolution: claims -/

/-- C9: with the memoized path `cachedDir` as explicit state, once a call of `Dir` has
succeeded with result `d`: `d` is not empty and is what the cell holds; every later call in
the process, whatever the global flags, the tool and the working directory are at that time
(`gs`), returns `d` with no error, runs no command and leaves the cell as it is. And any call
of `Dir` either leaves the cell as it was or finds it empty, succeeds and stores its
non-empty result: the cell is written by the first successful resolution only. -/
theorem Dir_memoized (g : Git) (cachedDir d : String)
    (h : (Dir g cachedDir).outcome = .ok d) :
    d ≠ "" ∧ (Dir g cachedDir).cachedDir = d ∧
    (∀ gs : List Git,
      (runDirs gs (Dir g cachedDir).cachedDir).length = gs.length ∧
      ∀ r ∈ runDirs gs (Dir g cachedDir).cachedDir, r = ⟨.ok d, d, []⟩) ∧
    (∀ (g' : Git) (c : String),
      (Dir g' c).cachedDir = c ∨
        (c = "" ∧ (Dir g' c).cachedDir ≠ "" ∧
          (Dir g' c).outcome = .ok (Dir g' c).cachedDir)) := by
  obtain ⟨hd, hcell, _⟩ := Dir_ok h
  refine ⟨hd, hcell, ?_, ?_⟩
  · intro gs
    rw [hcell]
    exact ⟨length_runDirs gs d, runDirs_of_cached hd gs⟩
  · intro g' c
    cases hout : (Dir g' c).outcome with
    | ok d' =>
      obtain ⟨h1, h2, h3⟩ := Dir_ok hout
      rcases h3 with h3 | h3
      · exact Or.inr ⟨h3, by rw [h2]; exact h1, by rw [h2]⟩
      · exact Or.inl (by rw [h2, h3])
    | error msg =>
      have hinv := Dir_inv g' c
      unfold DirInv at hinv
      rw [hout] at hinv
      exact Or.inl hinv
    | panic =>
      have hinv := Dir_inv g' c
      unfold DirInv at hinv
      rw [hout] at hinv
      exact Or.inl hinv

/-- A run of C9: the first call resolves `.git` under `-C /srv/repo`; two later calls, after
the flags, the tool and the working directory have changed, return the same directory and
run no command. -/
theorem Dir_memoized_witness :
    (Dir ⟨["-C", "/srv/repo"], fun _ => (".git\n", none), .ok "/home"⟩ "").outcome =
      .ok "/srv/repo/.git" ∧
    (Dir ⟨["-C", "/srv/repo"], fun _ => (".git\n", none), .ok "/home"⟩ "").cachedDir =
      "/srv/repo/.git" ∧
    ∀ r ∈ runDirs
        [⟨["-C", "/tmp"], fun _ => ("other\n", none), .ok "/tmp"⟩,
         ⟨[], fun _ => ("fatal: not a git repository\n", some "exit status 128"),
          .error "getwd: no such file or directory"⟩]
        (Dir ⟨["-C", "/srv/repo"], fun _ => (".git\n", none), .ok "/home"⟩ "").cachedDir,
      r = ⟨.ok "/srv/repo/.git", "/srv/repo/.git", []⟩ :=
  have h := Dir_memoized ⟨["-C", "/srv/repo"], fun _ => (".git\n", none), .ok "/home"⟩ ""
    "/srv/repo/.git" (by decide)
  ⟨by decide, h.2.1, (h.2.2.1 _).2⟩

/-! ### Template lookup: claims -/

/-- C10 at the listing `["README.md", "pull_request_templatemd.md"]`: no name of the listing
is `pull_request_template` once its extension is stripped, so the specification asks for the
empty string, and `getFilePath` returns the path of `pull_request_templatemd.md`:
`strings.TrimRight(fileName, ".md")` removes every trailing `.`, `m` and `d`. The same
happens with `issue_templatet.txt`, and a file whose name does match is found by both. -/
theorem getFilePath_trims_cutset :
    templateNameMatches pullRequestTemplate "pull_request_templatemd.md" = false ∧
    firstTemplatePath ".github" pullRequestTemplate
      ["README.md", "pull_request_templatemd.md"] = "" ∧
    TrimRight "pull_request_templatemd.md" ".md" = "pull_request_template" ∧
    getFilePath (.ok ["README.md", "pull_request_templatemd.md"]) ".github"
      pullRequestTemplate = .ok ".github/pull_request_templatemd.md" ∧
    firstTemplatePath "." issueTemplate ["issue_templatet.txt"] = "" ∧
    getFilePath (.ok ["issue_templatet.txt"]) "." issueTemplate = .ok "issue_templatet.txt" ∧
    firstTemplatePath ".github" pullRequestTemplate ["a.txt", "PULL_REQUEST_TEMPLATE.md"] =
      ".github/PULL_REQUEST_TEMPLATE.md" ∧
    getFilePath (.ok ["a.txt", "PULL_REQUEST_TEMPLATE.md"]) ".github" pullRequestTemplate =
      .ok ".github/PULL_REQUEST_TEMPLATE.md" :=
  ⟨by decide, by decide, by decide, rfl, by decide, rfl, by decide, rfl⟩

end Hub
